import Mathlib

/-!
# Verification of `Cpp/iteration.cpp`

The program is a single `main` that writes to standard output through four
blocks: a counted `for` loop, a `while` loop, a `do`-`while` loop and a
range-based `for` over a fixed array.

Embedding.

* Standard output is the text written so far, a `String`; every `cout << x`
  appends to it.  `endl` appends a newline (the flush does not change the text).
* A C++ `int` is an `Int`.  In every loop of the program the counter is
  incremented only below the bound or from `0`, so the increment never leaves
  the range of a 32-bit `int` and no wrap-around has to be modelled.
* Each loop is given twice, both read off the source: as a function from the
  state before the loop to the state after it (proved total by the measure
  `bound - counter`), and as a step function over the loop's program points,
  which is what the statements about "every execution of the body" and "every
  point of the loop" are about.  The two are proved to agree.
* The bound `5` of the three counter loops is a parameter `n` of the loop
  definitions; `main` instantiates it with `5`.
-/

namespace Iteration

/-! ## Output primitives -/

/-- Statement `cout << s` for a string literal `s`. -/
def coutStr (out : String) (s : String) : String := out ++ s

/-- Statement `cout << v` for an `int` value `v`: its decimal representation. -/
def coutInt (out : String) (v : Int) : String := out ++ toString v

/-- Statement `cout << endl`: a newline character. -/
def coutEndl (out : String) : String := out ++ "\n"

/-- The body statement `cout << "Perulangan ke-" << v << endl;` shared by all four loops. -/
def printLine (out : String) (v : Int) : String :=
  coutEndl (coutInt (coutStr out "Perulangan ke-") v)

/-! ## The loops as state transformers -/

/-- Loop `for (int i = 0; i < n; i++) { print i }`, entered with counter `i`.
Returns the counter at loop exit and the output. -/
def forLoop (n : Int) (i : Int) (out : String) : Int × String :=
  if i < n then
    forLoop n (i + 1) (printLine out i)
  else
    (i, out)
termination_by (n - i).toNat
decreasing_by omega

/-- Loop `while (j < n) { print j; j++; }`, entered with counter `j`. -/
def whileLoop (n : Int) (j : Int) (out : String) : Int × String :=
  if j < n then
    let out1 := printLine out j
    let j1 := j + 1
    whileLoop n j1 out1
  else
    (j, out)
termination_by (n - j).toNat
decreasing_by omega

/-- Loop `do { print k; k++; } while (k < n);`, entered with counter `k`. -/
def doWhileLoop (n : Int) (k : Int) (out : String) : Int × String :=
  let out1 := printLine out k
  let k1 := k + 1
  if k1 < n then
    doWhileLoop n k1 out1
  else
    (k1, out1)
termination_by (n - k).toNat
decreasing_by omega

/-- Loop `for (int i : arr) { print i }` over the elements still to visit. -/
def rangeFor : List Int → String → String
  | [], out => out
  | i :: rest, out => rangeFor rest (printLine out i)

/-- The array `int arr[] = {1, 2, 3, 4, 5};`. -/
def arr : List Int := [1, 2, 3, 4, 5]

/-- The counted block: `for (int i = 0; i < n; i++) ...` from its initialisation. -/
def forBlock (n : Int) (out : String) : String := (forLoop n 0 out).2

/-- The pre-condition block: `int j = 0; while (j < n) ...`. -/
def whileBlock (n : Int) (out : String) : String := (whileLoop n 0 out).2

/-- The post-condition block: `int k = 0; do ... while (k < n);`. -/
def doWhileBlock (n : Int) (out : String) : String := (doWhileLoop n 0 out).2

/-- The collection block: the header line, then the range-based loop over `a`. -/
def rangeBlock (a : List Int) (out : String) : String :=
  rangeFor a (coutEndl (coutStr out "Iterasi menggunakan range-based for:"))

/-- Function `main`: the exit code and the text written to standard output,
which is empty when the process starts. -/
def main : Int × String :=
  let out := coutStr (coutStr "" "Praktikum C++: Iterasi") "\n\n"
  let out := forBlock 5 out
  let out := coutStr out "\n"
  let out := whileBlock 5 out
  let out := coutStr out "\n"
  let out := doWhileBlock 5 out
  let out := coutStr out "\n"
  let out := rangeBlock arr out
  (0, out)

/-- What the process can be started with: command-line arguments, environment
variables and the content of standard input. -/
structure Env where
  args : List String
  environ : List (String × String)
  stdin : String

/-- One run of the program: `int main()` has no parameters and its body reads
neither its environment nor standard input. -/
def runProgram (_env : Env) : Int × String := main

/-! ## The loops as step functions over their program points -/

/-- Program points of a counter loop: the condition, the print statement of
the body, the increment, and the point after the loop. -/
inductive Pc where
  | test
  | print
  | incr
  | done
  deriving DecidableEq, Repr

/-- Configuration of a counter loop: program point, counter and output. -/
structure Cfg where
  pc : Pc
  c : Int
  out : String
  deriving DecidableEq

/-- One step of `for (int i = 0; i < n; i++) { print i }`. -/
def forStep (n : Int) (s : Cfg) : Cfg :=
  match s.pc with
  | .test => if s.c < n then { s with pc := .print } else { s with pc := .done }
  | .print => { s with pc := .incr, out := printLine s.out s.c }
  | .incr => { s with pc := .test, c := s.c + 1 }
  | .done => s

/-- One step of `while (j < n) { print j; j++; }`. -/
def whileStep (n : Int) (s : Cfg) : Cfg :=
  match s.pc with
  | .test => if s.c < n then { s with pc := .print } else { s with pc := .done }
  | .print => { s with pc := .incr, out := printLine s.out s.c }
  | .incr => { s with pc := .test, c := s.c + 1 }
  | .done => s

/-- One step of `do { print k; k++; } while (k < n);`. -/
def doWhileStep (n : Int) (s : Cfg) : Cfg :=
  match s.pc with
  | .print => { s with pc := .incr, out := printLine s.out s.c }
  | .incr => { s with pc := .test, c := s.c + 1 }
  | .test => if s.c < n then { s with pc := .print } else { s with pc := .done }
  | .done => s

/-- Entry of the counted block: after `int i = 0`, at the condition. -/
def forEntry (out : String) : Cfg := { pc := .test, c := 0, out := out }

/-- Entry of the pre-condition block: after `int j = 0`, at the condition. -/
def whileEntry (out : String) : Cfg := { pc := .test, c := 0, out := out }

/-- Entry of the post-condition block: after `int k = 0`, at the body. -/
def doWhileEntry (out : String) : Cfg := { pc := .print, c := 0, out := out }

/-- Configuration of the range-based loop: program point, the elements from
the iterator to the end of the array, and output. -/
structure RangeCfg where
  pc : Pc
  rest : List Int
  out : String
  deriving DecidableEq

/-- One step of `for (int i : arr) { print i }`: the condition compares the
iterator with the end, the body binds `i` to the element under the iterator,
the increment advances the iterator. -/
def rangeStep (s : RangeCfg) : RangeCfg :=
  match s.pc with
  | .test =>
    match s.rest with
    | [] => { s with pc := .done }
    | _ :: _ => { s with pc := .print }
  | .print =>
    match s.rest with
    | [] => s
    | i :: _ => { s with pc := .incr, out := printLine s.out i }
  | .incr => { s with pc := .test, rest := s.rest.tail }
  | .done => s

/-- Entry of the range-based loop over `a`: the iterator at the first element. -/
def rangeEntry (a : List Int) (out : String) : RangeCfg :=
  { pc := .test, rest := a, out := out }

/-- The configuration after `t` steps. -/
def run {σ : Type} (step : σ → σ) : Nat → σ → σ
  | 0, s => s
  | t + 1, s => run step t (step s)

/-- Number of executions of the loop body that start within the first `t` steps. -/
def bodyCount (step : Cfg → Cfg) : Nat → Cfg → Nat
  | 0, _ => 0
  | t + 1, s => (if s.pc = Pc.print then 1 else 0) + bodyCount step t (step s)

/-- The value of the condition `k < n` of the post-condition loop the first
time it is evaluated, which is after the first execution of the body. -/
def doWhileFirstCheck (n : Int) (out : String) : Bool :=
  decide ((run (doWhileStep n) 2 (doWhileEntry out)).c < n)

/-- The counter of a configuration `s` of a loop with bound `n` is within the
bound: never negative, never above `n`, below `n` whenever the body is about to
run or has printed, equal to `n` after the loop, one more after the body
(print, increment) than before it, and changed by a single step by `0` or `1`. -/
def CounterInBound (step : Cfg → Cfg) (n : Int) (s : Cfg) : Prop :=
  0 ≤ s.c ∧ s.c ≤ n
    ∧ (s.pc = Pc.print → s.c < n)
    ∧ (s.pc = Pc.incr → s.c < n)
    ∧ (s.pc = Pc.done → s.c = n)
    ∧ (s.pc = Pc.print → (run step 2 s).c = s.c + 1)
    ∧ ((step s).c = s.c ∨ (step s).c = s.c + 1)

instance (step : Cfg → Cfg) (n : Int) (s : Cfg) : Decidable (CounterInBound step n s) := by
  unfold CounterInBound
  infer_instance

/-- The counter of a loop with bound `n` stays between 0 and `max n 1`. -/
def CounterInRange (n : Int) (s : Cfg) : Prop :=
  0 ≤ s.c ∧ s.c ≤ max n 1 ∧ (s.pc = Pc.print ∨ s.pc = Pc.incr → s.c < max n 1)

/-! ## Observing the output as lines -/

/-- Split a text at newline characters: the newline-terminated lines in order
(without their newline) and the text after the last newline. -/
def splitChars : List Char → List (List Char) × List Char
  | [] => ([], [])
  | c :: cs =>
    match splitChars cs with
    | (ls, r) =>
      if c = '\n' then ([] :: ls, r)
      else
        match ls with
        | [] => ([], c :: r)
        | l :: ls1 => ((c :: l) :: ls1, r)

/-- The newline-terminated lines of a text and its unterminated remainder. -/
def splitLines (s : String) : List String × String :=
  ((splitChars s.data).1.map String.mk, String.mk (splitChars s.data).2)

/-- The lines a text consists of when every line is newline-terminated. -/
def linesOf (s : String) : Option (List String) :=
  if (splitLines s).2 = "" then some (splitLines s).1 else none

/-- The line printed for the value `v`, without its newline. -/
def lineOf (v : Int) : String := "Perulangan ke-" ++ toString v

/-- The text of a sequence of lines, each terminated by a newline. -/
def unlines : List String → String
  | [] => ""
  | l :: ls => l ++ "\n" ++ unlines ls

/-- The counter values `c, c+1, ..., c+m-1`. -/
def countFrom (c : Int) : Nat → List Int
  | 0 => []
  | m + 1 => c :: countFrom (c + 1) m

/-! ## Text lemmas -/

theorem printLine_eq (out : String) (v : Int) :
    printLine out v = out ++ (lineOf v ++ "\n") := by
  simp [printLine, coutEndl, coutInt, coutStr, lineOf, String.append_assoc]

theorem digitChar_ne_newline (d : Nat) (h : d < 10) : Nat.digitChar d ≠ '\n' := by
  interval_cases d <;> decide

theorem toDigitsCore_no_newline (fuel : Nat) :
    ∀ (n : Nat) (acc : List Char), '\n' ∉ acc → '\n' ∉ Nat.toDigitsCore 10 fuel n acc := by
  induction fuel with
  | zero => intro n acc h; simpa [Nat.toDigitsCore] using h
  | succ f ih =>
    intro n acc h
    have hd : '\n' ∉ Nat.digitChar (n % 10) :: acc := by
      intro hm
      rcases List.mem_cons.1 hm with h1 | h1
      · exact digitChar_ne_newline (n % 10) (Nat.mod_lt _ (by decide)) h1.symm
      · exact h h1
    simp only [Nat.toDigitsCore]
    split
    · exact hd
    · exact ih _ _ hd

theorem natRepr_no_newline (n : Nat) : '\n' ∉ (Nat.repr n).data := by
  simpa [Nat.repr, Nat.toDigits, List.asString] using toDigitsCore_no_newline (n + 1) n [] (by simp)

theorem intToString_no_newline (v : Int) : '\n' ∉ (toString v).data := by
  cases v with
  | ofNat m => exact natRepr_no_newline m
  | negSucc m =>
    show '\n' ∉ ("-" ++ Nat.repr (Nat.succ m)).data
    rw [String.data_append]
    intro hm
    rcases List.mem_append.1 hm with h1 | h1
    · revert h1; decide
    · exact natRepr_no_newline _ h1

theorem lineOf_no_newline (v : Int) : '\n' ∉ (lineOf v).data := by
  unfold lineOf
  rw [String.data_append]
  intro hm
  rcases List.mem_append.1 hm with h1 | h1
  · revert h1; decide
  · exact intToString_no_newline v h1

theorem splitChars_line (l : List Char) (h : '\n' ∉ l) (rest : List Char) :
    splitChars (l ++ '\n' :: rest) = (l :: (splitChars rest).1, (splitChars rest).2) := by
  induction l with
  | nil => simp [splitChars]
  | cons c l ih =>
    have hc : c ≠ '\n' := fun e => h (by simp [e])
    have hl : '\n' ∉ l := fun e => h (List.mem_cons_of_mem _ e)
    simp [splitChars, ih hl, hc]

theorem splitChars_unlines (ls : List String) (h : ∀ l ∈ ls, '\n' ∉ l.data) :
    splitChars (unlines ls).data = (ls.map String.data, []) := by
  induction ls with
  | nil => simp [unlines, splitChars]
  | cons l ls ih =>
    have h1 : '\n' ∉ l.data := h l (List.mem_cons_self _ _)
    have h2 : ∀ x ∈ ls, '\n' ∉ x.data := fun x hx => h x (List.mem_cons_of_mem _ hx)
    have e : (unlines (l :: ls)).data = l.data ++ '\n' :: (unlines ls).data := by
      simp [unlines, String.data_append]
    rw [e, splitChars_line l.data h1, ih h2]
    simp

theorem splitLines_unlines (ls : List String) (h : ∀ l ∈ ls, '\n' ∉ l.data) :
    splitLines (unlines ls) = (ls, "") := by
  simp [splitLines, splitChars_unlines ls h, Function.comp_def]

theorem linesOf_unlines (ls : List String) (h : ∀ l ∈ ls, '\n' ∉ l.data) :
    linesOf (unlines ls) = some ls := by
  simp [linesOf, splitLines_unlines ls h]

theorem linesOf_unlines_lineOf (vs : List Int) :
    linesOf (unlines (vs.map lineOf)) = some (vs.map lineOf) := by
  apply linesOf_unlines
  intro l hl
  obtain ⟨v, _, rfl⟩ := List.mem_map.1 hl
  exact lineOf_no_newline v

/-! ## Closed forms of the loops -/

theorem forLoop_eq (n : Int) (m : Nat) :
    ∀ (c : Int) (out : String), (n - c).toNat = m →
      forLoop n c out = (max n c, out ++ unlines ((countFrom c m).map lineOf)) := by
  induction m with
  | zero =>
    intro c out h
    have hc : ¬ c < n := by omega
    rw [forLoop, if_neg hc]
    simp [countFrom, unlines, max_eq_right (not_lt.1 hc)]
  | succ m ih =>
    intro c out h
    have hc : c < n := by omega
    rw [forLoop, if_pos hc, ih (c + 1) _ (by omega), printLine_eq]
    have h1 : max n (c + 1) = max n c := by
      rw [max_eq_left (by omega), max_eq_left (by omega)]
    simp [countFrom, unlines, h1, String.append_assoc]

theorem whileLoop_eq (n : Int) (m : Nat) :
    ∀ (c : Int) (out : String), (n - c).toNat = m →
      whileLoop n c out = (max n c, out ++ unlines ((countFrom c m).map lineOf)) := by
  induction m with
  | zero =>
    intro c out h
    have hc : ¬ c < n := by omega
    rw [whileLoop, if_neg hc]
    simp [countFrom, unlines, max_eq_right (not_lt.1 hc)]
  | succ m ih =>
    intro c out h
    have hc : c < n := by omega
    rw [whileLoop, if_pos hc]
    simp only []
    rw [ih (c + 1) _ (by omega), printLine_eq]
    have h1 : max n (c + 1) = max n c := by
      rw [max_eq_left (by omega), max_eq_left (by omega)]
    simp [countFrom, unlines, h1, String.append_assoc]

theorem doWhileLoop_eq (n : Int) (m : Nat) :
    ∀ (c : Int) (out : String), (n - (c + 1)).toNat = m →
      doWhileLoop n c out =
        (max n (c + 1), out ++ unlines ((countFrom c (m + 1)).map lineOf)) := by
  induction m with
  | zero =>
    intro c out h
    have hc : ¬ c + 1 < n := by omega
    rw [doWhileLoop, if_neg hc, printLine_eq]
    simp [countFrom, unlines, max_eq_right (not_lt.1 hc)]
  | succ m ih =>
    intro c out h
    have hc : c + 1 < n := by omega
    rw [doWhileLoop, if_pos hc, ih (c + 1) _ (by omega), printLine_eq]
    have h1 : max n (c + 1 + 1) = max n (c + 1) := by
      rw [max_eq_left (by omega), max_eq_left (by omega)]
    rw [h1]
    simp [countFrom, unlines, String.append_assoc]

theorem rangeFor_eq (a : List Int) :
    ∀ out : String, rangeFor a out = out ++ unlines (a.map lineOf) := by
  induction a with
  | nil => intro out; simp [rangeFor, unlines]
  | cons v a ih =>
    intro out
    rw [rangeFor, ih, printLine_eq]
    simp [unlines, String.append_assoc]

/-! ## Execution of the step functions -/

theorem run_add {σ : Type} (step : σ → σ) (a : Nat) :
    ∀ (b : Nat) (s : σ), run step (a + b) s = run step b (run step a s) := by
  induction a with
  | zero => intro b s; simp [run]
  | succ a ih =>
    intro b s
    rw [Nat.add_right_comm]
    simp only [run]
    exact ih b (step s)

theorem bodyCount_add (step : Cfg → Cfg) (a : Nat) :
    ∀ (b : Nat) (s : Cfg),
      bodyCount step (a + b) s = bodyCount step a s + bodyCount step b (run step a s) := by
  induction a with
  | zero => intro b s; simp [run, bodyCount]
  | succ a ih =>
    intro b s
    rw [Nat.add_right_comm]
    simp only [run, bodyCount]
    rw [ih b (step s)]
    omega

theorem run_fixed {σ : Type} (step : σ → σ) (s : σ) (h : step s = s) :
    ∀ t : Nat, run step t s = s := by
  intro t
  induction t with
  | zero => rfl
  | succ t ih => simp only [run, h, ih]

theorem bodyCount_fixed (step : Cfg → Cfg) (s : Cfg) (h : step s = s) (hp : s.pc ≠ Pc.print) :
    ∀ t : Nat, bodyCount step t s = 0 := by
  intro t
  induction t with
  | zero => rfl
  | succ t ih => simp only [bodyCount, h, ih, if_neg hp]

theorem forStep_run (n : Int) (m : Nat) :
    ∀ (c : Int) (out : String), (n - c).toNat = m →
      run (forStep n) (3 * m + 1) ⟨.test, c, out⟩
          = ⟨.done, (forLoop n c out).1, (forLoop n c out).2⟩
        ∧ bodyCount (forStep n) (3 * m + 1) ⟨.test, c, out⟩ = m := by
  induction m with
  | zero =>
    intro c out h
    have hc : ¬ c < n := by omega
    rw [forLoop, if_neg hc]
    simp [run, bodyCount, forStep, hc]
  | succ m ih =>
    intro c out h
    have hc : c < n := by omega
    obtain ⟨h1, h2⟩ := ih (c + 1) (printLine out c) (by omega)
    have e : 3 * (m + 1) + 1 = 3 + (3 * m + 1) := by ring
    have r3 : run (forStep n) 3 ⟨.test, c, out⟩ = ⟨.test, c + 1, printLine out c⟩ := by
      simp [run, forStep, hc]
    have b3 : bodyCount (forStep n) 3 ⟨.test, c, out⟩ = 1 := by
      simp [bodyCount, forStep, hc]
    rw [e, run_add, bodyCount_add, r3, b3, h1, h2]
    constructor
    · have u : forLoop n c out = forLoop n (c + 1) (printLine out c) := by
        rw [forLoop, if_pos hc]
      rw [u]
    · omega

theorem whileStep_run (n : Int) (m : Nat) :
    ∀ (c : Int) (out : String), (n - c).toNat = m →
      run (whileStep n) (3 * m + 1) ⟨.test, c, out⟩
          = ⟨.done, (whileLoop n c out).1, (whileLoop n c out).2⟩
        ∧ bodyCount (whileStep n) (3 * m + 1) ⟨.test, c, out⟩ = m := by
  induction m with
  | zero =>
    intro c out h
    have hc : ¬ c < n := by omega
    rw [whileLoop, if_neg hc]
    simp [run, bodyCount, whileStep, hc]
  | succ m ih =>
    intro c out h
    have hc : c < n := by omega
    obtain ⟨h1, h2⟩ := ih (c + 1) (printLine out c) (by omega)
    have e : 3 * (m + 1) + 1 = 3 + (3 * m + 1) := by ring
    have r3 : run (whileStep n) 3 ⟨.test, c, out⟩ = ⟨.test, c + 1, printLine out c⟩ := by
      simp [run, whileStep, hc]
    have b3 : bodyCount (whileStep n) 3 ⟨.test, c, out⟩ = 1 := by
      simp [bodyCount, whileStep, hc]
    rw [e, run_add, bodyCount_add, r3, b3, h1, h2]
    constructor
    · have u : whileLoop n c out = whileLoop n (c + 1) (printLine out c) := by
        rw [whileLoop, if_pos hc]
      rw [u]
    · omega

theorem doWhileStep_run (n : Int) (m : Nat) :
    ∀ (c : Int) (out : String), (n - (c + 1)).toNat = m →
      run (doWhileStep n) (3 * (m + 1)) ⟨.print, c, out⟩
          = ⟨.done, (doWhileLoop n c out).1, (doWhileLoop n c out).2⟩
        ∧ bodyCount (doWhileStep n) (3 * (m + 1)) ⟨.print, c, out⟩ = m + 1 := by
  induction m with
  | zero =>
    intro c out h
    have hc : ¬ c + 1 < n := by omega
    rw [doWhileLoop, if_neg hc]
    simp [run, bodyCount, doWhileStep, hc]
  | succ m ih =>
    intro c out h
    have hc : c + 1 < n := by omega
    obtain ⟨h1, h2⟩ := ih (c + 1) (printLine out c) (by omega)
    have e : 3 * (m + 1 + 1) = 3 + 3 * (m + 1) := by ring
    have r3 : run (doWhileStep n) 3 ⟨.print, c, out⟩ = ⟨.print, c + 1, printLine out c⟩ := by
      simp [run, doWhileStep, hc]
    have b3 : bodyCount (doWhileStep n) 3 ⟨.print, c, out⟩ = 1 := by
      simp [bodyCount, doWhileStep, hc]
    rw [e, run_add, bodyCount_add, r3, b3, h1, h2]
    constructor
    · have u : doWhileLoop n c out = doWhileLoop n (c + 1) (printLine out c) := by
        rw [doWhileLoop, if_pos hc]
      rw [u]
    · omega

/-- Once a loop has reached its exit it stays there, and no body starts any more. -/
theorem run_after_done (step : Cfg → Cfg) (hstep : ∀ s : Cfg, s.pc = Pc.done → step s = s)
    (T : Nat) (s0 sd : Cfg) (hd : sd.pc = Pc.done) (hr : run step T s0 = sd)
    (t : Nat) (ht : T ≤ t) :
    run step t s0 = sd ∧ bodyCount step t s0 = bodyCount step T s0 := by
  obtain ⟨d, rfl⟩ := Nat.exists_eq_add_of_le ht
  rw [run_add, bodyCount_add, hr, run_fixed step sd (hstep sd hd),
    bodyCount_fixed step sd (hstep sd hd) (by rw [hd]; decide)]
  simp

theorem forStep_done (n : Int) (s : Cfg) (h : s.pc = Pc.done) : forStep n s = s := by
  simp [forStep, h]

theorem whileStep_done (n : Int) (s : Cfg) (h : s.pc = Pc.done) : whileStep n s = s := by
  simp [whileStep, h]

theorem doWhileStep_done (n : Int) (s : Cfg) (h : s.pc = Pc.done) : doWhileStep n s = s := by
  simp [doWhileStep, h]


theorem countFrom_eq_range (m : Nat) :
    ∀ c : Int, countFrom c m = (List.range m).map (fun i : Nat => c + (i : Int)) := by
  induction m with
  | zero => intro c; rfl
  | succ m ih =>
    intro c
    rw [countFrom, ih, List.range_succ_eq_map]
    simp [Function.comp_def]
    intro a _
    ring

/-- The counted loop from its entry reaches its exit within `3 * n + 1` steps,
in the state `forLoop` returns, after `n` executions of the body (none for `n ≤ 0`). -/
theorem forStep_halts (n : Int) (out : String) (t : Nat) (ht : 3 * n.toNat + 1 ≤ t) :
    run (forStep n) t (forEntry out) = ⟨.done, (forLoop n 0 out).1, (forLoop n 0 out).2⟩
      ∧ bodyCount (forStep n) t (forEntry out) = n.toNat := by
  obtain ⟨h1, h2⟩ := forStep_run n n.toNat 0 out (by simp)
  have h := run_after_done (forStep n) (forStep_done n) _ (forEntry out) _ rfl h1 t ht
  exact ⟨h.1, h.2.trans h2⟩

/-- The pre-condition loop from its entry reaches its exit within `3 * n + 1`
steps, in the state `whileLoop` returns, after `n` executions of the body. -/
theorem whileStep_halts (n : Int) (out : String) (t : Nat) (ht : 3 * n.toNat + 1 ≤ t) :
    run (whileStep n) t (whileEntry out)
        = ⟨.done, (whileLoop n 0 out).1, (whileLoop n 0 out).2⟩
      ∧ bodyCount (whileStep n) t (whileEntry out) = n.toNat := by
  obtain ⟨h1, h2⟩ := whileStep_run n n.toNat 0 out (by simp)
  have h := run_after_done (whileStep n) (whileStep_done n) _ (whileEntry out) _ rfl h1 t ht
  exact ⟨h.1, h.2.trans h2⟩

/-- The post-condition loop from its entry reaches its exit within
`3 * max n 1` steps, in the state `doWhileLoop` returns, after `max n 1`
executions of the body. -/
theorem doWhileStep_halts (n : Int) (out : String) (t : Nat)
    (ht : 3 * (max n 1).toNat ≤ t) :
    run (doWhileStep n) t (doWhileEntry out)
        = ⟨.done, (doWhileLoop n 0 out).1, (doWhileLoop n 0 out).2⟩
      ∧ bodyCount (doWhileStep n) t (doWhileEntry out) = (max n 1).toNat := by
  have e : (max n 1).toNat = (n - (0 + 1)).toNat + 1 := by omega
  obtain ⟨h1, h2⟩ := doWhileStep_run n (n - (0 + 1)).toNat 0 out rfl
  rw [e] at ht ⊢
  have h := run_after_done (doWhileStep n) (doWhileStep_done n) _ (doWhileEntry out) _ rfl h1 t ht
  exact ⟨h.1, h.2.trans h2⟩

set_option maxRecDepth 100000 in
/-- The complete text `main` writes, with exit code `0`. -/
theorem main_eq :
    main = (0, "Praktikum C++: Iterasi\n\nPerulangan ke-0\nPerulangan ke-1\nPerulangan ke-2\nPerulangan ke-3\nPerulangan ke-4\n\nPerulangan ke-0\nPerulangan ke-1\nPerulangan ke-2\nPerulangan ke-3\nPerulangan ke-4\n\nPerulangan ke-0\nPerulangan ke-1\nPerulangan ke-2\nPerulangan ke-3\nPerulangan ke-4\n\nIterasi menggunakan range-based for:\nPerulangan ke-1\nPerulangan ke-2\nPerulangan ke-3\nPerulangan ke-4\nPerulangan ke-5\n") := by
  simp [main, forBlock, whileBlock, doWhileBlock, rangeBlock, arr, rangeFor, forLoop, whileLoop,
    doWhileLoop]
  decide

theorem rangeStep_run (a : List Int) :
    ∀ out : String,
      run rangeStep (3 * a.length + 1) (rangeEntry a out) = ⟨.done, [], rangeFor a out⟩ := by
  induction a with
  | nil => intro out; simp [run, rangeStep, rangeEntry, rangeFor]
  | cons v a ih =>
    intro out
    have e : 3 * (v :: a).length + 1 = 3 + (3 * a.length + 1) := by
      simp only [List.length_cons]; ring
    have r3 : run rangeStep 3 (rangeEntry (v :: a) out) = rangeEntry a (printLine out v) := by
      simp [run, rangeStep, rangeEntry]
    rw [e, run_add, r3, ih, rangeFor]

theorem rangeStep_halts (a : List Int) (out : String) (t : Nat) (ht : 3 * a.length + 1 ≤ t) :
    run rangeStep t (rangeEntry a out) = ⟨.done, [], rangeFor a out⟩ := by
  obtain ⟨d, rfl⟩ := Nat.exists_eq_add_of_le ht
  rw [run_add, rangeStep_run, run_fixed rangeStep _ (by simp [rangeStep])]

theorem string_append_left_cancel (out x y : String) (h : out ++ x = out ++ y) : x = y := by
  have h1 := congrArg String.data h
  rw [String.data_append, String.data_append] at h1
  exact String.ext (List.append_cancel_left h1)

theorem forBlock_eq (n : Int) (out : String) :
    forBlock n out = out ++ unlines ((countFrom 0 n.toNat).map lineOf) := by
  rw [forBlock, forLoop_eq n n.toNat 0 out (by simp)]

theorem whileBlock_eq (n : Int) (out : String) :
    whileBlock n out = out ++ unlines ((countFrom 0 n.toNat).map lineOf) := by
  rw [whileBlock, whileLoop_eq n n.toNat 0 out (by simp)]

theorem doWhileBlock_eq (n : Int) (out : String) :
    doWhileBlock n out = out ++ unlines ((countFrom 0 (max n 1).toNat).map lineOf) := by
  have e : (max n 1).toNat = (n - (0 + 1)).toNat + 1 := by omega
  rw [doWhileBlock, doWhileLoop_eq n (n - (0 + 1)).toNat 0 out rfl, e]

theorem doWhileFirstCheck_eq (n : Int) (out : String) :
    doWhileFirstCheck n out = decide (1 < n) := by
  simp [doWhileFirstCheck, run, doWhileStep, doWhileEntry]

theorem run_invariant {σ : Type} (step : σ → σ) (P : σ → Prop)
    (hP : ∀ s, P s → P (step s)) : ∀ (t : Nat) (s : σ), P s → P (run step t s) := by
  intro t
  induction t with
  | zero => intro s h; exact h
  | succ t ih => intro s h; exact ih (step s) (hP s h)

theorem forStep_counterInBound (n : Int) (s : Cfg)
    (h : CounterInBound (forStep n) n s) : CounterInBound (forStep n) n (forStep n s) := by
  obtain ⟨pc, c, out⟩ := s
  unfold CounterInBound at h ⊢
  cases pc <;> simp [forStep, run] at h ⊢ <;> (try split_ifs) <;> (try simp) <;> omega

theorem whileStep_counterInBound (n : Int) (s : Cfg)
    (h : CounterInBound (whileStep n) n s) :
    CounterInBound (whileStep n) n (whileStep n s) :=
  forStep_counterInBound n s h

theorem doWhileStep_counterInBound (n : Int) (s : Cfg)
    (h : CounterInBound (doWhileStep n) n s) :
    CounterInBound (doWhileStep n) n (doWhileStep n s) := by
  obtain ⟨pc, c, out⟩ := s
  unfold CounterInBound at h ⊢
  cases pc <;> simp [doWhileStep, run] at h ⊢ <;> (try split_ifs) <;> (try simp) <;> omega

theorem unlines_ne_empty (l : String) (ls : List String) : unlines (l :: ls) ≠ "" := by
  intro h
  have h1 := congrArg String.length h
  simp only [unlines, String.length_append] at h1
  have h2 : "\n".length = 1 := by decide
  have h3 : "".length = 0 := by decide
  omega

/-- No increment leaves the range of a 32-bit `int`: for a bound `n` that is an
`int`, the counter of each counter loop stays between 0 and `max n 1`, so
at most `2^31 - 1`, at every point of the execution. -/
theorem counter_in_int_range (n : Int) (hn : n ≤ 2 ^ 31 - 1) (out : String) (t : Nat) :
    (0 ≤ (run (forStep n) t (forEntry out)).c
      ∧ (run (forStep n) t (forEntry out)).c ≤ 2 ^ 31 - 1)
    ∧ (0 ≤ (run (whileStep n) t (whileEntry out)).c
      ∧ (run (whileStep n) t (whileEntry out)).c ≤ 2 ^ 31 - 1)
    ∧ (0 ≤ (run (doWhileStep n) t (doWhileEntry out)).c
      ∧ (run (doWhileStep n) t (doWhileEntry out)).c ≤ 2 ^ 31 - 1) := by
  have hf : ∀ s, CounterInRange n s → CounterInRange n (forStep n s) := by
    intro s h
    obtain ⟨pc, c, o⟩ := s
    unfold CounterInRange at h ⊢
    cases pc <;> simp [forStep] at h ⊢ <;> (try split_ifs) <;> (try simp) <;> omega
  have hd : ∀ s, CounterInRange n s → CounterInRange n (doWhileStep n s) := by
    intro s h
    obtain ⟨pc, c, o⟩ := s
    unfold CounterInRange at h ⊢
    cases pc <;> simp [doWhileStep] at h ⊢ <;> (try split_ifs) <;> (try simp) <;> omega
  have h1 := run_invariant (forStep n) _ hf t (forEntry out)
    (by simp [CounterInRange, forEntry])
  have h2 := run_invariant (whileStep n) _ hf t (whileEntry out)
    (by simp [CounterInRange, whileEntry])
  have h3 := run_invariant (doWhileStep n) _ hd t (doWhileEntry out)
    (by simp [CounterInRange, doWhileEntry])
  unfold CounterInRange at h1 h2 h3
  refine ⟨⟨h1.1, ?_⟩, ⟨h2.1, ?_⟩, ⟨h3.1, ?_⟩⟩ <;> omega

/-! ## The claims -/

set_option maxRecDepth 100000 in
/-- C1: the text `main` writes to standard output, split at newline characters,
is exactly the title line, an empty line, the lines for 0..4 of the `for` loop,
an empty line, the lines for 0..4 of the `while` loop, an empty line, the lines
for 0..4 of the `do`-`while` loop, an empty line, the header line and the lines
for 1..5 of the range-based loop, in this order; every line, the last included,
is terminated by a newline (nothing follows the last newline). -/
theorem C1_main_output_lines :
    linesOf main.2 = some
      [ "Praktikum C++: Iterasi", "",
        "Perulangan ke-0", "Perulangan ke-1", "Perulangan ke-2", "Perulangan ke-3",
        "Perulangan ke-4", "",
        "Perulangan ke-0", "Perulangan ke-1", "Perulangan ke-2", "Perulangan ke-3",
        "Perulangan ke-4", "",
        "Perulangan ke-0", "Perulangan ke-1", "Perulangan ke-2", "Perulangan ke-3",
        "Perulangan ke-4", "",
        "Iterasi menggunakan range-based for:",
        "Perulangan ke-1", "Perulangan ke-2", "Perulangan ke-3", "Perulangan ke-4",
        "Perulangan ke-5" ]
      ∧ (splitLines main.2).2 = "" := by
  rw [main_eq]
  decide

set_option maxRecDepth 100000 in
/-- C2, as stated, fails: the output of a run of `main` without arguments does
not consist of 21 newline-terminated lines. -/
theorem C2_line_count_not_21 :
    (linesOf (runProgram { args := [], environ := [], stdin := "" }).2).map List.length
      ≠ some 21 := by
  rw [runProgram, main_eq]
  decide

set_option maxRecDepth 100000 in
/-- C2, amended: a run of `main` without arguments, whatever the environment
variables and standard input, writes exactly 26 newline-terminated lines (the
title, the header, 20 lines of the four loops and 4 empty lines). -/
theorem C2_line_count_26 (environ : List (String × String)) (stdin : String) :
    (linesOf (runProgram { args := [], environ := environ, stdin := stdin }).2).map List.length
      = some 26
    ∧ (((linesOf (runProgram { args := [], environ := environ, stdin := stdin }).2).getD []).filter
        (· = "")).length = 4 := by
  rw [runProgram, main_eq]
  decide

set_option maxRecDepth 100000 in
/-- C3: for any output written before, each of the three counter blocks with
bound 5 (the `for`, the `while` and the `do`-`while` loop, counter starting at
0) appends exactly the 5 newline-terminated lines "Perulangan ke-0" to
"Perulangan ke-4", whose embedded values are 0,1,2,3,4 in order, and each of
them executes its body exactly 5 times. -/
theorem C3_counter_blocks_emit_five_lines (out : String) :
    forBlock 5 out = out ++ "Perulangan ke-0\nPerulangan ke-1\nPerulangan ke-2\nPerulangan ke-3\nPerulangan ke-4\n"
    ∧ whileBlock 5 out = out ++ "Perulangan ke-0\nPerulangan ke-1\nPerulangan ke-2\nPerulangan ke-3\nPerulangan ke-4\n"
    ∧ doWhileBlock 5 out = out ++ "Perulangan ke-0\nPerulangan ke-1\nPerulangan ke-2\nPerulangan ke-3\nPerulangan ke-4\n"
    ∧ linesOf "Perulangan ke-0\nPerulangan ke-1\nPerulangan ke-2\nPerulangan ke-3\nPerulangan ke-4\n"
        = some ["Perulangan ke-0", "Perulangan ke-1", "Perulangan ke-2", "Perulangan ke-3",
            "Perulangan ke-4"]
    ∧ ["Perulangan ke-0", "Perulangan ke-1", "Perulangan ke-2", "Perulangan ke-3",
          "Perulangan ke-4"].length = 5
    ∧ ["Perulangan ke-0", "Perulangan ke-1", "Perulangan ke-2", "Perulangan ke-3",
          "Perulangan ke-4"] = ([0, 1, 2, 3, 4] : List Int).map lineOf
    ∧ (∀ t, 16 ≤ t → bodyCount (forStep 5) t (forEntry out) = 5)
    ∧ (∀ t, 16 ≤ t → bodyCount (whileStep 5) t (whileEntry out) = 5)
    ∧ (∀ t, 15 ≤ t → bodyCount (doWhileStep 5) t (doWhileEntry out) = 5) := by
  have hs : unlines ((countFrom 0 5).map lineOf)
      = "Perulangan ke-0\nPerulangan ke-1\nPerulangan ke-2\nPerulangan ke-3\nPerulangan ke-4\n" := by
    decide
  refine ⟨?_, ?_, ?_, by decide, by decide, by decide, ?_, ?_, ?_⟩
  · rw [forBlock, forLoop_eq 5 5 0 out (by decide), hs]
  · rw [whileBlock, whileLoop_eq 5 5 0 out (by decide), hs]
  · rw [doWhileBlock, doWhileLoop_eq 5 4 0 out (by decide), hs]
  · intro t ht
    exact (forStep_halts 5 out t ht).2
  · intro t ht
    exact (whileStep_halts 5 out t ht).2
  · intro t ht
    exact (doWhileStep_halts 5 out t ht).2

set_option maxRecDepth 100000 in
/-- C4: for any output written before, the collection block of `main` appends
exactly the header line followed by exactly 5 lines embedding, in order, the
element values 1,2,3,4,5 of the array, which are not the lines of the positions
0,1,2,3,4.  In general, for every integer sequence `a` the block appends the
header and then one newline-terminated line per element, and the `k`-th of
these lines embeds the value of the `k`-th element of `a`. -/
theorem C4_collection_block_emits_values (a : List Int) (out : String) :
    rangeBlock arr out = out ++ "Iterasi menggunakan range-based for:\nPerulangan ke-1\nPerulangan ke-2\nPerulangan ke-3\nPerulangan ke-4\nPerulangan ke-5\n"
    ∧ linesOf "Iterasi menggunakan range-based for:\nPerulangan ke-1\nPerulangan ke-2\nPerulangan ke-3\nPerulangan ke-4\nPerulangan ke-5\n"
        = some ["Iterasi menggunakan range-based for:", "Perulangan ke-1", "Perulangan ke-2",
            "Perulangan ke-3", "Perulangan ke-4", "Perulangan ke-5"]
    ∧ ["Perulangan ke-1", "Perulangan ke-2", "Perulangan ke-3", "Perulangan ke-4",
          "Perulangan ke-5"] = ([1, 2, 3, 4, 5] : List Int).map lineOf
    ∧ arr = [1, 2, 3, 4, 5]
    ∧ arr.map lineOf ≠ ([0, 1, 2, 3, 4] : List Int).map lineOf
    ∧ rangeBlock a out
        = out ++ unlines ("Iterasi menggunakan range-based for:" :: a.map lineOf)
    ∧ linesOf (unlines ("Iterasi menggunakan range-based for:" :: a.map lineOf))
        = some ("Iterasi menggunakan range-based for:" :: a.map lineOf)
    ∧ (a.map lineOf).length = a.length
    ∧ (∀ (k : Nat) (v : Int), a[k]? = some v →
        ("Iterasi menggunakan range-based for:" :: a.map lineOf)[k + 1]?
          = some ("Perulangan ke-" ++ toString v)) := by
  have hgen : ∀ b : List Int, rangeBlock b out
      = out ++ unlines ("Iterasi menggunakan range-based for:" :: b.map lineOf) := by
    intro b
    rw [rangeBlock, rangeFor_eq]
    simp [coutEndl, coutStr, unlines, String.append_assoc]
  refine ⟨?_, by decide, by decide, rfl, by decide, hgen a, ?_, by simp, ?_⟩
  · have hs : unlines ("Iterasi menggunakan range-based for:" :: arr.map lineOf)
        = "Iterasi menggunakan range-based for:\nPerulangan ke-1\nPerulangan ke-2\nPerulangan ke-3\nPerulangan ke-4\nPerulangan ke-5\n" := by
      decide
    rw [hgen arr, hs]
  · apply linesOf_unlines
    intro l hl
    rcases List.mem_cons.1 hl with h1 | h1
    · rw [h1]; decide
    · obtain ⟨v, _, rfl⟩ := List.mem_map.1 h1
      exact lineOf_no_newline v
  · intro k v hk
    simp [List.getElem?_cons_succ, List.getElem?_map, hk, lineOf]

/-- C5, as stated, fails at the bound 1: the condition of the post-condition
loop is false on its first check (`1 < 1`), the loop has printed the line of
0, but the counted and the pre-condition loop with the same bound execute their
body once as well and print the same line instead of nothing. -/
theorem C5_fails_at_bound_one :
    doWhileFirstCheck 1 "" = false
    ∧ doWhileBlock 1 "" = "Perulangan ke-0\n"
    ∧ forBlock 1 "" = "Perulangan ke-0\n"
    ∧ whileBlock 1 "" = "Perulangan ke-0\n"
    ∧ bodyCount (forStep 1) 4 (forEntry "") = 1
    ∧ bodyCount (whileStep 1) 4 (whileEntry "") = 1
    ∧ ¬ (∀ (n : Int) (out : String), doWhileFirstCheck n out = false →
          doWhileBlock n out = out ++ "Perulangan ke-0\n"
            ∧ forBlock n out = out ∧ whileBlock n out = out) := by
  have hf : forBlock 1 "" = "Perulangan ke-0\n" := by
    rw [forBlock_eq]; decide
  refine ⟨by decide, ?_, hf, ?_, by decide, by decide, ?_⟩
  · rw [doWhileBlock_eq]; decide
  · rw [whileBlock_eq]; decide
  · intro h
    have h1 := (h 1 "" (by decide)).2.1
    rw [hf] at h1
    revert h1
    decide

/-- C5, amended: with the bound a parameter `n`, the condition of the
post-condition loop is false on its first check exactly when `n ≤ 1`, and then
the loop has executed its body exactly once and printed the single line of 0.
The counted and the pre-condition loop execute their body zero times and print
nothing whenever `n ≤ 0`; at `n = 1` they execute it once and print that same
line. -/
theorem C5_post_condition_loop_runs_once (n : Int) (out : String) :
    (doWhileFirstCheck n out = false ↔ n ≤ 1)
    ∧ (doWhileFirstCheck n out = false →
        doWhileBlock n out = out ++ "Perulangan ke-0\n"
          ∧ (doWhileLoop n 0 out).1 = 1
          ∧ ∀ t, 3 ≤ t → bodyCount (doWhileStep n) t (doWhileEntry out) = 1
              ∧ (run (doWhileStep n) t (doWhileEntry out)).pc = Pc.done)
    ∧ (n ≤ 0 →
        forBlock n out = out ∧ whileBlock n out = out
          ∧ ∀ t, bodyCount (forStep n) t (forEntry out) = 0
              ∧ bodyCount (whileStep n) t (whileEntry out) = 0)
    ∧ (n = 1 →
        forBlock n out = out ++ "Perulangan ke-0\n"
          ∧ whileBlock n out = out ++ "Perulangan ke-0\n") := by
  have hone : unlines ((countFrom 0 1).map lineOf) = "Perulangan ke-0\n" := by decide
  refine ⟨?_, ?_, ?_, ?_⟩
  · rw [doWhileFirstCheck_eq]; simp
  · intro h
    have hn : n ≤ 1 := by
      rw [doWhileFirstCheck_eq] at h; simpa using h
    have e : (max n 1).toNat = 1 := by omega
    refine ⟨?_, ?_, ?_⟩
    · rw [doWhileBlock_eq, e, hone]
    · rw [doWhileLoop_eq n (n - (0 + 1)).toNat 0 out rfl]
      show max n (0 + 1) = 1
      omega
    · intro t ht
      have h2 := doWhileStep_halts n out t (by omega)
      rw [e] at h2
      exact ⟨h2.2, by rw [h2.1]⟩
  · intro hn
    have e : n.toNat = 0 := by omega
    refine ⟨?_, ?_, ?_⟩
    · rw [forBlock_eq, e]; simp [countFrom, unlines]
    · rw [whileBlock_eq, e]; simp [countFrom, unlines]
    · intro t
      cases t with
      | zero => exact ⟨rfl, rfl⟩
      | succ t =>
        have h1 := (forStep_halts n out (t + 1) (by omega)).2
        have h2 := (whileStep_halts n out (t + 1) (by omega)).2
        rw [e] at h1 h2
        exact ⟨h1, h2⟩
  · intro hn
    subst hn
    refine ⟨?_, ?_⟩
    · rw [forBlock_eq]; exact congrArg _ hone
    · rw [whileBlock_eq]; exact congrArg _ hone

/-- C5, amended, at the bound 0 and with no output before. -/
theorem C5_post_condition_loop_runs_once_witness :
    doWhileBlock 0 "" = "" ++ "Perulangan ke-0\n"
    ∧ forBlock 0 "" = "" ∧ whileBlock 0 "" = "" :=
  ⟨((C5_post_condition_loop_runs_once 0 "").2.1 (by decide)).1,
   ((C5_post_condition_loop_runs_once 0 "").2.2.1 (by decide)).1,
   ((C5_post_condition_loop_runs_once 0 "").2.2.1 (by decide)).2.1⟩

/-- C6: for every integer bound `n`, and so for 5, the pre-condition block
writes exactly the text the counted block writes, so the same sequence of
lines; the two loops leave equal counters, and their executions agree step by
step. -/
theorem C6_while_block_equals_for_block (n : Int) (out : String) :
    whileBlock n out = forBlock n out
    ∧ whileBlock 5 out = forBlock 5 out
    ∧ (∀ c : Int, whileLoop n c out = forLoop n c out)
    ∧ linesOf (whileBlock n out) = linesOf (forBlock n out)
    ∧ (∀ t : Nat, run (whileStep n) t (whileEntry out) = run (forStep n) t (forEntry out)) := by
  have h : ∀ (b c : Int) (o : String), whileLoop b c o = forLoop b c o := by
    intro b c o
    rw [whileLoop_eq b (b - c).toNat c o rfl, forLoop_eq b (b - c).toNat c o rfl]
  refine ⟨?_, ?_, fun c => h n c out, ?_, ?_⟩
  · rw [whileBlock, forBlock, h]
  · rw [whileBlock, forBlock, h]
  · rw [whileBlock, forBlock, h]
  · intro t
    have hs : whileStep n = forStep n := rfl
    rw [hs]
    rfl

/-- C7: `main` returns the exit code 0, in every run.  Each loop reaches its
exit after finitely many steps: the counted and the pre-condition loop within
`3 * n + 1` steps and the post-condition loop within `3 * max n 1` steps for
every integer bound `n`, the range-based loop within `3 * length + 1` steps for
every array.  The measure `n - counter` never grows in a step of a counter
loop and drops with every increment made below the bound. -/
theorem C7_main_terminates_with_exit_code_zero (n : Int) (a : List Int) (out : String) :
    main.1 = 0
    ∧ (∀ e : Env, (runProgram e).1 = 0)
    ∧ (∀ t, 3 * n.toNat + 1 ≤ t → (run (forStep n) t (forEntry out)).pc = Pc.done)
    ∧ (∀ t, 3 * n.toNat + 1 ≤ t → (run (whileStep n) t (whileEntry out)).pc = Pc.done)
    ∧ (∀ t, 3 * (max n 1).toNat ≤ t → (run (doWhileStep n) t (doWhileEntry out)).pc = Pc.done)
    ∧ (∀ t, 3 * a.length + 1 ≤ t → (run rangeStep t (rangeEntry a out)).pc = Pc.done)
    ∧ (∀ s : Cfg,
        (n - (forStep n s).c).toNat ≤ (n - s.c).toNat
        ∧ (n - (whileStep n s).c).toNat ≤ (n - s.c).toNat
        ∧ (n - (doWhileStep n s).c).toNat ≤ (n - s.c).toNat)
    ∧ (∀ s : Cfg, s.pc = Pc.incr → s.c < n →
        (n - (forStep n s).c).toNat < (n - s.c).toNat
        ∧ (n - (whileStep n s).c).toNat < (n - s.c).toNat
        ∧ (n - (doWhileStep n s).c).toNat < (n - s.c).toNat) := by
  refine ⟨by rw [main_eq], fun e => by rw [runProgram, main_eq], ?_, ?_, ?_, ?_, ?_, ?_⟩
  · intro t ht; rw [(forStep_halts n out t ht).1]
  · intro t ht; rw [(whileStep_halts n out t ht).1]
  · intro t ht; rw [(doWhileStep_halts n out t ht).1]
  · intro t ht; rw [rangeStep_halts a out t ht]
  · intro s
    obtain ⟨pc, c, o⟩ := s
    cases pc <;> simp [forStep, whileStep, doWhileStep] <;> try split_ifs <;> simp
    all_goals omega
  · intro s hp hc
    obtain ⟨pc, c, o⟩ := s
    simp at hp hc
    subst hp
    simp [forStep, whileStep, doWhileStep]
    omega

/-- C9: at every point of the execution of each of the three counter loops of
`main` (bound 5, counter from 0, any output before), the counter `c` satisfies
`0 ≤ c ≤ 5`; whenever the body is about to run `c < 5`; after the body (print,
increment) the counter is `c + 1`, and no single step changes it by anything
but `0` or `1`; at the loop's exit, after the final increment, it is 5, and
each loop reaches its exit. -/
theorem C9_counter_stays_within_bound (out : String) (t : Nat) :
    CounterInBound (forStep 5) 5 (run (forStep 5) t (forEntry out))
    ∧ CounterInBound (whileStep 5) 5 (run (whileStep 5) t (whileEntry out))
    ∧ CounterInBound (doWhileStep 5) 5 (run (doWhileStep 5) t (doWhileEntry out))
    ∧ (run (forStep 5) 16 (forEntry out)).pc = Pc.done
    ∧ (run (whileStep 5) 16 (whileEntry out)).pc = Pc.done
    ∧ (run (doWhileStep 5) 15 (doWhileEntry out)).pc = Pc.done := by
  refine ⟨?_, ?_, ?_, by rw [(forStep_halts 5 out 16 (by decide)).1],
    by rw [(whileStep_halts 5 out 16 (by decide)).1],
    by rw [(doWhileStep_halts 5 out 15 (by decide)).1]⟩
  · apply run_invariant (forStep 5) _ (forStep_counterInBound 5)
    simp [CounterInBound, forEntry, forStep]
  · apply run_invariant (whileStep 5) _ (whileStep_counterInBound 5)
    simp [CounterInBound, whileEntry, whileStep]
  · apply run_invariant (doWhileStep 5) _ (doWhileStep_counterInBound 5)
    simp [CounterInBound, doWhileEntry, doWhileStep, run]

/-- C10: with the bound a parameter `n`, the post-condition loop entered with
counter 0 executes its body exactly `max n 1` times, writes the lines of the
counter values `0, 1, ..., max n 1 - 1` in order and leaves the counter equal
to `max n 1`.  For every `n ≥ 1` its output is that of the counted and of the
pre-condition loop with the same bound, and it differs from theirs exactly
when `n ≤ 0`. -/
theorem C10_do_while_runs_max_n_one_times (n : Int) (out : String) :
    doWhileLoop n 0 out
        = (max n 1,
            out ++ unlines ((List.range (max n 1).toNat).map (fun i : Nat => lineOf (i : Int))))
    ∧ linesOf (unlines ((List.range (max n 1).toNat).map (fun i : Nat => lineOf (i : Int))))
        = some ((List.range (max n 1).toNat).map (fun i : Nat => lineOf (i : Int)))
    ∧ (∀ t, 3 * (max n 1).toNat ≤ t →
        bodyCount (doWhileStep n) t (doWhileEntry out) = (max n 1).toNat
          ∧ run (doWhileStep n) t (doWhileEntry out)
              = ⟨Pc.done, max n 1, (doWhileLoop n 0 out).2⟩)
    ∧ (1 ≤ n → doWhileBlock n out = forBlock n out ∧ doWhileBlock n out = whileBlock n out)
    ∧ (doWhileBlock n out ≠ forBlock n out ↔ n ≤ 0)
    ∧ (doWhileBlock n out ≠ whileBlock n out ↔ n ≤ 0) := by
  have hcf : ∀ m : Nat, (countFrom 0 m).map lineOf
      = (List.range m).map (fun i : Nat => lineOf (i : Int)) := by
    intro m
    rw [countFrom_eq_range]
    simp [Function.comp_def]
  have hloop : doWhileLoop n 0 out
      = (max n 1,
          out ++ unlines ((List.range (max n 1).toNat).map (fun i : Nat => lineOf (i : Int)))) := by
    have e : (n - (0 + 1)).toNat + 1 = (max n 1).toNat := by omega
    rw [doWhileLoop_eq n (n - (0 + 1)).toNat 0 out rfl, e, hcf]
    simp
  have hge : 1 ≤ n → doWhileBlock n out = forBlock n out := by
    intro h
    have e : (max n 1).toNat = n.toNat := by omega
    rw [doWhileBlock_eq, forBlock_eq, e]
  have hle : n ≤ 0 → doWhileBlock n out ≠ forBlock n out := by
    intro h
    have e1 : (max n 1).toNat = 1 := by omega
    have e0 : n.toNat = 0 := by omega
    rw [doWhileBlock_eq, forBlock_eq, e1, e0]
    intro hh
    exact unlines_ne_empty _ _ (string_append_left_cancel _ _ _ hh)
  have hfw : whileBlock n out = forBlock n out := by
    rw [whileBlock_eq, forBlock_eq]
  have hiff : doWhileBlock n out ≠ forBlock n out ↔ n ≤ 0 := by
    constructor
    · intro h
      by_contra hn
      exact h (hge (by omega))
    · exact hle
  refine ⟨hloop, ?_, ?_, fun h => ⟨hge h, by rw [hfw]; exact hge h⟩, hiff, by rw [hfw]; exact hiff⟩
  · rw [← hcf]
    exact linesOf_unlines_lineOf _
  · intro t ht
    have h := doWhileStep_halts n out t ht
    refine ⟨h.2, ?_⟩
    rw [h.1, hloop]

end Iteration
